import Mathlib

/-
Verification development for the erasmusintern.org job-scraper and
job-search/ranking repository.

The Python sources are shallowly embedded as executable Lean definitions:

* `src/src/scraper.py` — listing extraction (`scrape_traineeship_listings`),
  detail-page merge (`get_traineeship_details`), pager detection
  (`get_total_pages`) and the pagination driver (`scrape_all`).
* `src/main.py` — the null-to-sentinel post-processing step of
  `scrape_command`.
* `src/search.py` — `keyword_matching` and the method dispatch of `main`.
* `src/rank_jobs.py` — `save_to_csv` row ordering, `process_query` and the
  score-column bookkeeping of `process_multiple_queries`.

Modelling conventions:

* HTML/CSS selector evaluation is abstracted: a page is represented by the
  selector results the Python code reads from it (`Option String` per
  selector, in source order for ordered selector lists).
* Python dicts are association lists (`List (String × Value)`); insertion
  order and first-occurrence lookup mirror dict semantics.
* Python numbers are `Int`/`Nat`; scores (Python floats) are `Rat` —
  exact rational arithmetic standing in for IEEE floats.
* A raised-and-not-caught `requests` exception is an `Except.error`; a
  caught one is the value the handler returns.
-/

/-! ### String helpers mirroring the Python primitives used by the sources -/

/-- The sentinel string used by the scraper for missing fields. -/
def sentinel : String := "Not specified"

/-- Boolean prefix test on character lists (`l₁` is a prefix of `l₂`). -/
def prefixOfB : List Char → List Char → Bool
  | [], _ => true
  | _ :: _, [] => false
  | a :: as, b :: bs => a == b && prefixOfB as bs

/-- Substring containment on character lists: models Python's `in` operator
on strings (`pat in text`). The empty pattern is contained in everything. -/
def containsSub (pat : List Char) : List Char → Bool
  | [] => prefixOfB pat []
  | c :: ts => prefixOfB pat (c :: ts) || containsSub pat ts

/-- Containment test: `containsStr pat s` models Python `pat in s`. -/
def containsStr (pat s : String) : Bool :=
  containsSub pat.data s.data

/-- Startswith test: `strStartsWith s pre` models Python `s.startswith(pre)`. -/
def strStartsWith (s pre : String) : Bool :=
  pre.data.isPrefixOf s.data

/-- Models Python `str.strip()`: drop leading and trailing whitespace.
(Defined over the character list so that it reduces inside the kernel.) -/
def pyStrip (s : String) : String :=
  String.mk (((s.data.dropWhile Char.isWhitespace).reverse.dropWhile
    Char.isWhitespace).reverse)

/-- Models Python `str.lower()`: lowercase every character.  (ASCII
lowering; the sources only compare ASCII keywords.) -/
def toLowerStr (s : String) : String :=
  String.mk (s.data.map Char.toLower)

/-- The characters after the first occurrence of `pat`, or `none` when
`pat` does not occur — the remainder half of Python `s.split(pat, 1)`. -/
def afterSub (pat : List Char) : List Char → Option (List Char)
  | [] => none
  | c :: rest =>
    if prefixOfB pat (c :: rest) then some ((c :: rest).drop pat.length)
    else afterSub pat rest

/-- The characters before the next occurrence of `pat` (everything when
`pat` does not occur) — delimits one piece of Python `s.split(pat)`. -/
def upToSub (pat : List Char) : List Char → List Char
  | [] => []
  | c :: rest =>
    if prefixOfB pat (c :: rest) then [] else c :: upToSub pat rest

/-- Scanner for `removeSub`: while `skip` is positive the character
belongs to an already-matched occurrence and is dropped. -/
def removeSubAux (pat : List Char) : List Char → Nat → List Char
  | [], _ => []
  | _ :: rest, skip + 1 => removeSubAux pat rest skip
  | c :: rest, 0 =>
    if prefixOfB pat (c :: rest) then
      match pat with
      | [] => c :: removeSubAux pat rest 0
      | _ :: ps => removeSubAux pat rest ps.length
    else c :: removeSubAux pat rest 0

/-- Models Python `s.replace(pat, "")` for a non-empty `pat`: delete every
non-overlapping occurrence, scanning left to right. -/
def removeSub (pat text : List Char) : List Char :=
  removeSubAux pat text 0

/-- Models Python `s.replace(old, new)` for one-character patterns (the
only other `replace` the sources perform, `" " → "_"`). -/
def pyReplaceChar (old new : Char) (s : String) : String :=
  String.mk (s.data.map (fun c => if c = old then new else c))

/-- Word scanner for `pySplit`; `acc` is the current word, reversed. -/
def splitWsAux : List Char → List Char → List (List Char)
  | [], acc => if acc = [] then [] else [acc.reverse]
  | c :: rest, acc =>
    if c.isWhitespace then
      if acc = [] then splitWsAux rest [] else acc.reverse :: splitWsAux rest []
    else splitWsAux rest (c :: acc)

/-- Models Python `str.split()` with no argument: split on runs of
whitespace, discarding empty pieces. -/
def pySplit (s : String) : List String :=
  (splitWsAux s.data []).map String.mk

/-- Digits of a numeral to a natural number (base 10). -/
def digitsToNat (cs : List Char) : Nat :=
  cs.foldl (fun acc c => acc * 10 + (c.toNat - 48)) 0

/-- Models Python `int(s)` as a partial parse: optional surrounding
whitespace, an optional sign, then decimal digits.  `none` stands for a
raised `ValueError`.  (Python's underscore digit separators are not
modelled; none of the verified properties depend on them.) -/
def pyInt (s : String) : Option Int :=
  match (pyStrip s).data with
  | [] => none
  | c :: rest =>
    if c = '-' then
      if rest ≠ [] ∧ rest.all Char.isDigit then some (-(digitsToNat rest : Int)) else none
    else if c = '+' then
      if rest ≠ [] ∧ rest.all Char.isDigit then some ((digitsToNat rest : Int)) else none
    else if (c :: rest).all Char.isDigit then some ((digitsToNat (c :: rest) : Int)) else none

/-! ### Python-dict model: association lists over string keys -/

/-- A Python value stored in a scraped record: a string, an integer
(`page_number`), or `None`. -/
inductive Value where
  | str (s : String)
  | int (n : Int)
  | null
deriving DecidableEq, Repr

/-- A scraped record: a Python dict in insertion order. -/
abbrev RecordV := List (String × Value)

/-- First-occurrence lookup, i.e. Python `d[k]` / `k in d`. -/
def getVal {α : Type} : List (String × α) → String → Option α
  | [], _ => none
  | (k, v) :: rest, key => if key = k then some v else getVal rest key

/-- Python `d[k] = v`: replace the value at the first occurrence of `k`,
or append a new binding at the end (dict insertion order). -/
def setField {α : Type} : List (String × α) → String → α → List (String × α)
  | [], key, v => [(key, v)]
  | (k, w) :: rest, key, v =>
    if key = k then (key, v) :: rest else (k, w) :: setField rest key v

theorem getVal_setField_self {α : Type} (l : List (String × α)) (k : String) (v : α) :
    getVal (setField l k v) k = some v := by
  induction l with
  | nil => simp [setField, getVal]
  | cons p rest ih =>
    obtain ⟨a, w⟩ := p
    by_cases h : k = a
    · simp [setField, getVal, h]
    · simp [setField, getVal, h, ih]

theorem getVal_setField_ne {α : Type} (l : List (String × α)) {k k' : String} (v : α)
    (h : k' ≠ k) : getVal (setField l k v) k' = getVal l k' := by
  induction l with
  | nil => simp [setField, getVal, h]
  | cons p rest ih =>
    obtain ⟨a, w⟩ := p
    by_cases hk : k = a
    · subst hk
      simp [setField, getVal, h, ih]
    · by_cases hk' : k' = a
      · simp [setField, getVal, hk, hk']
      · simp [setField, getVal, hk, hk', ih]

theorem setField_of_getVal_none {α : Type} (l : List (String × α)) {k : String} (v : α)
    (h : getVal l k = none) : setField l k v = l ++ [(k, v)] := by
  induction l with
  | nil => simp [setField]
  | cons p rest ih =>
    obtain ⟨a, w⟩ := p
    by_cases hk : k = a
    · simp [getVal, hk] at h
    · simp [getVal, hk] at h
      simp [setField, hk, ih h]

theorem getVal_append {α : Type} (l₁ l₂ : List (String × α)) (k : String) :
    getVal (l₁ ++ l₂) k = (getVal l₁ k).orElse (fun _ => getVal l₂ k) := by
  induction l₁ with
  | nil => simp [getVal]
  | cons p rest ih =>
    obtain ⟨a, w⟩ := p
    by_cases hk : k = a
    · simp [getVal, hk]
    · simp [getVal, hk, ih]

/-! ### `scraper.py`: listing-fragment extraction (`scrape_traineeship_listings`) -/

/-- The `<a>` element carrying a listing's title: its text and `href`. -/
structure TitleElem where
  text : String
  href : String
deriving DecidableEq, Repr

/-- The `.field-name-field-traineeship-apply-deadline` container of a
fragment: the text of its `.date-display-single` child and of its plain
`.field-item` child, when present. -/
structure DeadlineBox where
  single : Option String
  item : Option String
deriving DecidableEq, Repr

/-- One listing fragment of an index page, abstracted to the selector
results `scrape_traineeship_listings` reads from it.  `durationSel` and
`postDateSel` list the result of each of the four candidate selectors in
source order (`select_one` per selector; the loop takes the first hit). -/
structure Fragment where
  titlePrimary : Option TitleElem
  titleAlt : Option TitleElem
  companyElem : Option String
  countryElem : Option String
  cityElem : Option String
  durationSel : List (Option String)
  postDateSel : List (Option String)
  deadlineBox : Option DeadlineBox
  fieldOfStudy : Option String
deriving DecidableEq, Repr

/-- First hit of an ordered selector list. -/
def firstSome : List (Option String) → Option String
  | [] => none
  | some s :: _ => some s
  | none :: rest => firstSome rest

/-- Label stripping applied to duration and post-date texts:
`if label in text: text.replace(label, "").strip() else text`. -/
def labelStrip (label text : String) : String :=
  if containsStr label text then pyStrip (String.mk (removeSub label.data text.data))
  else text

/-- Ordered-selector extraction with label stripping; sentinel when no
selector matched. -/
def extractFirst (sel : List (Option String)) (label : String) : String :=
  match firstSome sel with
  | none => sentinel
  | some text => labelStrip label text

/-- Location assembly: city and country join with a comma; a country alone
stands by itself; anything else (including a city without a country)
degrades to the sentinel. -/
def extractLocation (f : Fragment) : String :=
  match f.cityElem, f.countryElem with
  | some ci, some co => pyStrip ci ++ ", " ++ pyStrip co
  | _, some co => pyStrip co
  | _, none => sentinel

/-- Deadline extraction: inside the deadline container, prefer the
`.date-display-single` text, then the plain `.field-item` text. -/
def extractDeadline (f : Fragment) : String :=
  match f.deadlineBox with
  | none => sentinel
  | some box =>
    match box.single with
    | some t => pyStrip t
    | none =>
      match box.item with
      | some t => pyStrip t
      | none => sentinel

/-- The record literal built for a fragment whose title element was found,
in dict insertion order, exactly as in the source. -/
def build_record (page_num : Int) (f : Fragment) (te : TitleElem) : RecordV :=
  [("title", .str (pyStrip te.text)),
   ("company", .str (match f.companyElem with | some c => pyStrip c | none => sentinel)),
   ("location", .str (extractLocation f)),
   ("duration", .str (extractFirst f.durationSel "Duration:")),
   ("post_date", .str (extractFirst f.postDateSel "Post date:")),
   ("deadline", .str (extractDeadline f)),
   ("field", .str (match f.fieldOfStudy with | some t => pyStrip t | none => sentinel)),
   ("url", .str (if strStartsWith te.href "http" then te.href
                 else "https://erasmusintern.org" ++ te.href)),
   ("page_number", .int page_num)]

/-- Per-fragment extraction: the title element is looked up through the
primary selector pair, then the alternate pair; a fragment with no title
is skipped (`continue`) and yields no record. -/
def extract_record (page_num : Int) (f : Fragment) : Option RecordV :=
  match f.titlePrimary <|> f.titleAlt with
  | none => none
  | some te => some (build_record page_num f te)

/-- All records produced from the fragments of one index page. -/
def extract_page (page_num : Int) (frags : List Fragment) : List RecordV :=
  frags.filterMap (extract_record page_num)

/-! ### `scraper.py`: network outcomes and the fetch wrappers -/

/-- The outcome of `self.session.get(...)`: a raised connection error, or a
response with a status code and a parsed body. -/
inductive HttpResult (α : Type) where
  | connError
  | response (status : Nat) (body : α)

/-- Statuses for which `response.raise_for_status()` raises: 4xx and 5xx. -/
def errorStatus (s : Nat) : Bool :=
  400 ≤ s && s < 600

/-- Listing-page scrape `scrape_traineeship_listings`: the whole body sits in a
`try/except requests.RequestException` that returns `[]`, so a connection
error or an error status yields an empty list for that page. -/
def scrape_traineeship_listings (f : HttpResult (List Fragment)) (page_num : Int) :
    List RecordV :=
  match f with
  | .connError => []
  | .response s frags => if errorStatus s then [] else extract_page page_num frags

/-! ### `scraper.py`: detail-page merge (`get_traineeship_details`) -/

/-- A detail page, abstracted to the text found by each per-field selector
of the `fields` table (`post_date`, `duration`, `description`); a missing
key models `soup.select(selector)` finding no element. -/
abbrev DetailPage := List (String × String)

/-- The detail-page selector table's keys, in source order. -/
def detail_fields : List String := ["post_date", "duration", "description"]

/-- Detail-text cleanup `if ':' in text: text.split(':', 1)[1].strip()` —
everything after the first colon, trimmed; the text unchanged when it has
no colon. -/
def stripAfterColon (t : String) : String :=
  match afterSub [':'] t.data with
  | some rest => pyStrip (String.mk rest)
  | none => t

/-- Guard deciding whether a field already carries valid data:
`field_name in result and result[field_name] != "Not specified"`. -/
def hasValid (r : RecordV) (k : String) : Bool :=
  match getVal r k with
  | some v => v != Value.str sentinel
  | none => false

/-- The `details` dict assembled from the detail page: fields that already
carry valid data are skipped (`continue`); otherwise the selector text is
cleaned, or the sentinel recorded when no element matched. -/
def detail_updates (r : RecordV) (page : DetailPage) : List (String × String) :=
  detail_fields.filterMap (fun k =>
    if hasValid r k then none
    else some (k, match getVal page k with
      | some t => stripAfterColon t
      | none => sentinel))

/-- The second loop of `get_traineeship_details`: each `details` entry is
written back only when the field is still absent or sentinel-valued. -/
def apply_details (r : RecordV) (updates : List (String × String)) : RecordV :=
  updates.foldl (fun acc kv =>
    if hasValid acc kv.1 then acc else setField acc kv.1 (Value.str kv.2)) r

/-- The successful-fetch body of `get_traineeship_details`: copy the record
and merge the detail page additively. -/
def merge_details (r : RecordV) (page : DetailPage) : RecordV :=
  apply_details r (detail_updates r page)

/-- Detail fetch `get_traineeship_details`: the fetch and merge sit in a
`try/except requests.RequestException` that returns the original record,
so a connection error or an error status leaves the record unchanged. -/
def get_traineeship_details (r : RecordV) (f : HttpResult DetailPage) : RecordV :=
  match f with
  | .connError => r
  | .response s page => if errorStatus s then r else merge_details r page

/-! ### `scraper.py`: pager detection (`get_total_pages`) and the driver -/

/-- One element matched by `'.pager-item a, .pager-current'`: a link with
an `href` attribute, or a current-page marker carrying only text. -/
inductive PagerItem where
  | link (href : String)
  | current (text : String)
deriving DecidableEq, Repr

/-- The pager markup of the index page, abstracted to what
`get_total_pages` reads: the `href` of the first `'.pager-last a'` element
(`get('href', '')` defaults a missing attribute to `""`), and the pager
item elements in document order. -/
structure PagerHtml where
  pagerLast : Option String
  pagerItems : List PagerItem
deriving DecidableEq, Repr

/-- The per-item parse inside the pager-items loop; `none` models a
`ValueError`/`IndexError` caught by the inner `except`, which skips the
item. -/
def parsePagerItem : PagerItem → Option Int
  | .link href =>
    match afterSub "page=".data href.data with
    | none => none
    | some rem => (pyInt (String.mk (upToSub "page=".data rem))).map (· + 1)
  | .current text => pyInt text

/-- Fallback count after the pager-items loop: `max(pages) if pages else 1`. -/
def pagesFromItems (items : List PagerItem) : Int :=
  match items.filterMap parsePagerItem with
  | [] => 1
  | p :: ps => ps.foldl max p

/-- The body of `get_total_pages` once a response body is in hand: prefer
the last-page link's `page=` parameter (+1 for 1-based counting; a failed
`int(...)` is caught by the enclosing `except` and yields 1), else fall
back to the pager items, else 1. -/
def pagesFromBody (p : PagerHtml) : Int :=
  match p.pagerLast with
  | some href =>
    match afterSub "page=".data href.data with
    | some rem =>
      match pyInt (String.mk (upToSub "page=".data rem)) with
      | some n => n + 1
      | none => 1
    | none => pagesFromItems p.pagerItems
  | none => pagesFromItems p.pagerItems

/-- Pager detection `get_total_pages`: the `session.get` call happens before the `try`
block, so a raised connection error propagates to the caller; any response
body — whatever its status code, `raise_for_status` is not called here —
is parsed for a page count. -/
def get_total_pages (f : HttpResult PagerHtml) : Except Unit Int :=
  match f with
  | .connError => .error ()
  | .response _ body => .ok (pagesFromBody body)

/-- The effective page count of `scrape_all`: a positive `max_pages` caps
the detected total; `0`, a negative value, or `None` means all pages. -/
def effective_total (total : Int) (max_pages : Option Int) : Int :=
  match max_pages with
  | some m => if 0 < m then min total m else total
  | none => total

/-- Page walk `range(1, total_pages + 1)` — the 1-based pages the driver visits, in
increasing order (empty when the total is not positive). -/
def pagesRange (total : Int) : List Int :=
  (List.range' 1 total.toNat).map Int.ofNat

/-- Crawl driver `scrape_all`: detect the page count (a pager connection error
propagates), cap it, then walk the pages in order, scraping each page's
listings and optionally enriching every record from its detail page. -/
def scrape_all (pager : HttpResult PagerHtml)
    (pageFetch : Int → HttpResult (List Fragment))
    (detailFetch : RecordV → HttpResult DetailPage)
    (max_pages : Option Int) (get_details : Bool) : Except Unit (List RecordV) :=
  match get_total_pages pager with
  | .error e => .error e
  | .ok total =>
    .ok ((pagesRange (effective_total total max_pages)).flatMap (fun p =>
      let recs := scrape_traineeship_listings (pageFetch p) p
      if get_details then recs.map (fun r => get_traineeship_details r (detailFetch r))
      else recs))

/-! ### `main.py`: the null-to-sentinel post-processing of `scrape_command` -/

/-- The cleanup loop over one record: every `None` value is rewritten to
the sentinel; keys and non-null values are untouched. -/
def clean_record (t : RecordV) : RecordV :=
  t.map (fun kv => match kv.2 with
    | Value.null => (kv.1, Value.str sentinel)
    | _ => kv)

/-- The collection as persisted by `scrape_command`: every record passes
through the cleanup loop before `save_to_csv`/`save_to_json`. -/
def scrape_command_persisted (ts : List RecordV) : List RecordV :=
  ts.map clean_record

/-! ### `search.py`: keyword matching and the method dispatch of `main` -/

/-- A job record as loaded from the persisted JSON: string fields only
(the search code reads only string-valued fields). -/
abbrev SRecord := List (String × String)

/-- Field read with default: `job.get(k, '')`. -/
def jget (job : SRecord) (k : String) : String :=
  (getVal job k).getD ""

/-- The concatenated lowercase record text of `keyword_matching`: title,
company, field and description, lowercased and joined by single spaces. -/
def job_text (job : SRecord) : String :=
  toLowerStr (jget job "title") ++ " " ++ toLowerStr (jget job "company") ++ " " ++
    toLowerStr (jget job "field") ++ " " ++ toLowerStr (jget job "description")

/-- Stable descending insertion by score: a new row goes after every row
with an equal or higher score. -/
def insertDesc (x : SRecord × Rat) : List (SRecord × Rat) → List (SRecord × Rat)
  | [] => [x]
  | y :: ys => if y.2 < x.2 then x :: y :: ys else y :: insertDesc x ys

/-- Stable sort, descending by score — the semantics of Python's
`list.sort(key=..., reverse=True)`. -/
def sortDesc : List (SRecord × Rat) → List (SRecord × Rat)
  | [] => []
  | x :: xs => insertDesc x (sortDesc xs)

/-- The number of lowercased query terms contained in the record text
(duplicated terms count once each, as in the source's counting loop). -/
def matchCount (job : SRecord) (query_terms : List String) : Nat :=
  ((query_terms.map toLowerStr).filter
    (fun t => containsStr t (job_text job))).length

/-- Keyword scorer `keyword_matching` from `search.py`: score each job by the fraction of
query terms contained in its concatenated text, keep only jobs with a
positive raw count, and sort descending by score. -/
def keyword_matching (jobs : List SRecord) (query_terms : List String) :
    List (SRecord × Rat) :=
  let terms := query_terms.map toLowerStr
  sortDesc (jobs.filterMap (fun job =>
    let score := (terms.filter (fun t => containsStr t (job_text job))).length
    if 0 < score then some (job, mkRat score terms.length) else none))

/-- Outcome of the embedding path inside the `try` block: its results, or
an `ImportError` raised while loading/using the sentence-transformer
stack. -/
inductive EmbedOutcome (α : Type) where
  | ok (res : α)
  | importErr

/-- The `method == 'transformer'` path of `search.py`'s `main`: on success
the semantic-search results are used; on `ImportError` the handler prints
an installation hint and reruns the query through `keyword_matching`,
truncated to the requested result count. -/
def search_main_transformer (jobs : List SRecord) (query : String) (n : Nat)
    (embed : EmbedOutcome (List (SRecord × Rat))) : List (SRecord × Rat) :=
  match embed with
  | .ok res => res
  | .importErr => (keyword_matching jobs (pySplit query)).take n

/-! ### `rank_jobs.py`: single-query ranking and the multi-query columns -/

/-- The row order `save_to_csv` persists: jobs paired with their match
probabilities, sorted descending by probability.  (pandas' default
`sort_values` quicksort fixes no tie order; the model uses the stable
order, and no verified property depends on how ties break.) -/
def save_to_csv_rows (jobs : List SRecord) (probs : List Rat) :
    List (SRecord × Rat) :=
  sortDesc (jobs.zip probs)

/-- Single-query ranking `process_query`: an empty load aborts with `None`; an `ImportError`
from the embedding stack prints remediation instructions and returns
`None` — the invocation is abandoned, nothing is substituted. -/
def process_query (jobs : List SRecord) (query : String)
    (embed : EmbedOutcome (List Rat)) : Option (List (SRecord × Rat)) :=
  if jobs.isEmpty then none
  else
    match embed with
    | .importErr => none
    | .ok probs => some (save_to_csv_rows jobs probs)

/-- Score-column name for a query: the literal match_probability_ prefix
followed by the query text with spaces replaced by underscores. -/
def colName (q : String) : String :=
  "match_probability_" ++ pyReplaceChar ' ' '_' q

/-- The score columns of the multi-query DataFrame: name to per-row
values.  Column assignment `df[name] = vals` follows dict semantics
(overwrite in place or append), which `setField` provides. -/
abbrev Cols := List (String × List Rat)

/-- Row-wise mean over the selected columns:
`df[probability_cols].mean(axis=1)`. -/
def rowMeans (colVals : List (List Rat)) (nRows : Nat) : List Rat :=
  (List.range nRows).map (fun i =>
    (colVals.map (fun c => c.getD i 0)).sum / (colVals.length : Rat))

/-- The score-column bookkeeping of `process_multiple_queries`: one column
per query is assigned in order, then every column whose name starts with
`match_probability_` feeds the row-wise mean stored as
`average_match_probability`.  `base` holds whatever columns the loaded
records already had; `scores q` is the embedding similarity column for
query `q` (abstract — the model is external ML). -/
def process_multiple_queries_cols (base : Cols) (nRows : Nat)
    (queries : List String) (scores : String → List Rat) : Cols :=
  let cols := queries.foldl (fun acc q => setField acc (colName q) (scores q)) base
  let probCols := cols.filter (fun c => strStartsWith c.1 "match_probability_")
  setField cols "average_match_probability" (rowMeans (probCols.map Prod.snd) nRows)

/-! ### Helper lemmas about the detail merge -/

theorem hasValid_of_getVal {r : RecordV} {k : String} {v : Value}
    (hget : getVal r k = some v) (hne : v ≠ Value.str sentinel) :
    hasValid r k = true := by
  simp [hasValid, hget, hne]

theorem detail_updates_key_ne {r : RecordV} {page : DetailPage} {k : String}
    (hk : hasValid r k = true) :
    ∀ p ∈ detail_updates r page, p.1 ≠ k := by
  intro p hp
  simp only [detail_updates, List.mem_filterMap] at hp
  obtain ⟨x, _, hx⟩ := hp
  by_cases hv : hasValid r x
  · simp [hv] at hx
  · simp [hv] at hx
    subst hx
    intro hcontra
    simp only at hcontra
    rw [hcontra] at hv
    exact hv hk

theorem apply_details_getVal_of_ne (updates : List (String × String)) (r : RecordV)
    (k : String) (h : ∀ p ∈ updates, p.1 ≠ k) :
    getVal (apply_details r updates) k = getVal r k := by
  induction updates generalizing r with
  | nil => rfl
  | cons p ps ih =>
    have hp : p.1 ≠ k := h p (List.mem_cons_self p ps)
    have hrest : ∀ q ∈ ps, q.1 ≠ k := fun q hq => h q (List.mem_cons_of_mem p hq)
    show getVal (apply_details (if hasValid r p.1 then r else setField r p.1 (Value.str p.2)) ps) k = getVal r k
    by_cases hv : hasValid r p.1
    · rw [if_pos hv, ih _ hrest]
    · rw [if_neg hv, ih _ hrest, getVal_setField_ne _ _ (Ne.symm hp)]

/-- C1: the detail merge of `get_traineeship_details` is strictly additive —
for every listing record and every detail-page fetch outcome, a field whose
value in the input record is present and differs from the sentinel
`"Not specified"` keeps that value in the merged result. -/
theorem c1_detail_merge_preserves_valid_fields (r : RecordV) (f : HttpResult DetailPage)
    (k : String) (v : Value) (hget : getVal r k = some v)
    (hne : v ≠ Value.str sentinel) :
    getVal (get_traineeship_details r f) k = some v := by
  have hvalid := hasValid_of_getVal hget hne
  cases f with
  | connError => exact hget
  | response s page =>
    show getVal (if errorStatus s then r else merge_details r page) k = some v
    by_cases hs : errorStatus s
    · rw [if_pos hs]; exact hget
    · rw [if_neg hs]
      unfold merge_details
      rw [apply_details_getVal_of_ne _ _ _ (detail_updates_key_ne hvalid)]
      exact hget

/-- A listing record holding a listing-page duration of `"3 months"`. -/
def sample_listing_record : RecordV :=
  [("title", Value.str "Data traineeship"),
   ("company", Value.str "Acme"),
   ("duration", Value.str "3 months"),
   ("post_date", Value.str sentinel),
   ("url", Value.str "https://erasmusintern.org/traineeship/1")]

/-- A detail page whose duration selector reads `"6 months"`. -/
def sample_detail_page : DetailPage :=
  [("duration", "6 months"), ("post_date", "Post date: 01 Jan 2025"),
   ("description", "A data traineeship.")]

theorem c1_witness_duration_kept :
    getVal (get_traineeship_details sample_listing_record
      (HttpResult.response 200 sample_detail_page)) "duration"
      = some (Value.str "3 months") :=
  c1_detail_merge_preserves_valid_fields sample_listing_record
    (HttpResult.response 200 sample_detail_page) "duration" (Value.str "3 months")
    (by decide) (by decide)

/-- C2 counterexample: a connection error on the pager fetch is raised by
`self.session.get(self.base_url)` before `get_total_pages`' `try` block
begins, so it propagates out of the scraper and aborts the crawl — the
claim that every crawl fetch failure is caught locally is false. -/
theorem c2_counterexample_pager_conn_error_propagates :
    scrape_all HttpResult.connError (fun _ => HttpResult.connError)
      (fun _ => HttpResult.connError) none true = Except.error () := rfl

/-- C2 (amended): listing-page and detail-page fetch failures (connection
errors and 4xx/5xx statuses) are caught locally and yield an empty page or
the unchanged record, and a crawl whose pager fetch returns a response of
any status never raises; but a pager-fetch connection error always
propagates out of `scrape_all`. -/
theorem c2_amended_crawl_fetch_failures :
    (∀ p : Int, scrape_traineeship_listings HttpResult.connError p = []) ∧
    (∀ (s : Nat) (frags : List Fragment) (p : Int), 400 ≤ s → s < 600 →
      scrape_traineeship_listings (HttpResult.response s frags) p = []) ∧
    (∀ r : RecordV, get_traineeship_details r HttpResult.connError = r) ∧
    (∀ (r : RecordV) (s : Nat) (page : DetailPage), 400 ≤ s → s < 600 →
      get_traineeship_details r (HttpResult.response s page) = r) ∧
    (∀ (s : Nat) (body : PagerHtml) (pageFetch : Int → HttpResult (List Fragment))
      (detailFetch : RecordV → HttpResult DetailPage) (max_pages : Option Int)
      (get_details : Bool), ∃ l,
      scrape_all (HttpResult.response s body) pageFetch detailFetch max_pages
        get_details = Except.ok l) ∧
    (∀ (pageFetch : Int → HttpResult (List Fragment))
      (detailFetch : RecordV → HttpResult DetailPage) (max_pages : Option Int)
      (get_details : Bool),
      scrape_all HttpResult.connError pageFetch detailFetch max_pages
        get_details = Except.error ()) := by
  refine ⟨fun _ => rfl, ?_, fun _ => rfl, ?_, ?_, fun _ _ _ _ => rfl⟩
  · intro s frags p h1 h2
    have hs : errorStatus s = true := by simp [errorStatus]; omega
    simp [scrape_traineeship_listings, hs]
  · intro r s page h1 h2
    have hs : errorStatus s = true := by simp [errorStatus]; omega
    simp [get_traineeship_details, hs]
  · intro s body pageFetch detailFetch max_pages get_details
    exact ⟨_, rfl⟩

theorem c2_amended_witness :
    scrape_traineeship_listings (HttpResult.response 404 []) 1 = [] :=
  c2_amended_crawl_fetch_failures.2.1 404 [] 1 (by decide) (by decide)

/-- C5: with a positive page cap `C` the driver walks exactly pages
`1 .. min N C` in increasing order; with a cap of `0` or no cap it walks
pages `1 .. N`; and the visited page list is always strictly
increasing. -/
theorem c5_pagination_cap (N : Nat) (C : Int) :
    (0 < C → pagesRange (effective_total (N : Int) (some C)) =
      (List.range' 1 (min N C.toNat)).map Int.ofNat) ∧
    pagesRange (effective_total (N : Int) (some 0)) = (List.range' 1 N).map Int.ofNat ∧
    pagesRange (effective_total (N : Int) none) = (List.range' 1 N).map Int.ofNat ∧
    (∀ t : Int, (pagesRange t).Pairwise (· < ·)) := by
  refine ⟨?_, ?_, ?_, ?_⟩
  · intro hC
    have h : (min (N : Int) C).toNat = min N C.toNat := by omega
    simp [pagesRange, effective_total, hC, h]
  · simp [pagesRange, effective_total]
  · simp [pagesRange, effective_total]
  · intro t
    exact List.Pairwise.map _ (fun a b h => Int.ofNat_lt.mpr h)
      (List.pairwise_lt_range' 1 t.toNat)

theorem c5_witness_cap_three_of_ten :
    pagesRange (effective_total ((10 : Nat) : Int) (some 3)) =
      (List.range' 1 (min 10 (Int.toNat 3))).map Int.ofNat :=
  (c5_pagination_cap 10 3).1 (by decide)

/-- C6: every record in the persisted collection of `scrape_command` comes
from a scraped record by the null-cleanup loop, keeps exactly the same
field names, and holds no `None` value in any field — each value is either
the sentinel written by the cleanup or the original non-null value. -/
theorem c6_persisted_fields_never_null (ts : List RecordV) (r : RecordV)
    (hr : r ∈ scrape_command_persisted ts) :
    ∃ t ∈ ts, r = clean_record t ∧ r.map Prod.fst = t.map Prod.fst ∧
      ∀ kv ∈ r, kv.2 ≠ Value.null ∧ (kv.2 = Value.str sentinel ∨ kv ∈ t) := by
  simp only [scrape_command_persisted, List.mem_map] at hr
  obtain ⟨t, ht, rfl⟩ := hr
  refine ⟨t, ht, rfl, ?_, ?_⟩
  · unfold clean_record
    rw [List.map_map]
    exact List.map_congr_left (fun kv _ => by rcases kv with ⟨k, v⟩; cases v <;> rfl)
  · intro kv hkv
    simp only [clean_record, List.mem_map] at hkv
    obtain ⟨⟨k, v⟩, hmem, rfl⟩ := hkv
    cases v with
    | str s => exact ⟨by simp, Or.inr hmem⟩
    | int n => exact ⟨by simp, Or.inr hmem⟩
    | null => exact ⟨by simp, Or.inl rfl⟩

/-- A collection whose single record carries a `None` deadline. -/
def sample_null_collection : List RecordV :=
  [[("title", Value.str "T"), ("deadline", Value.null)]]

theorem c6_witness_null_rewritten :
    ∃ t ∈ sample_null_collection,
      [("title", Value.str "T"), ("deadline", Value.str sentinel)] = clean_record t ∧
      ([("title", Value.str "T"), ("deadline", Value.str sentinel)] : RecordV).map
        Prod.fst = t.map Prod.fst ∧
      ∀ kv ∈ ([("title", Value.str "T"), ("deadline", Value.str sentinel)] : RecordV),
        kv.2 ≠ Value.null ∧ (kv.2 = Value.str sentinel ∨ kv ∈ t) :=
  c6_persisted_fields_never_null sample_null_collection
    [("title", Value.str "T"), ("deadline", Value.str sentinel)] (by decide)

/-- If every selector of an ordered list missed, the list has no first
hit. -/
theorem firstSome_eq_none {l : List (Option String)} (h : ∀ o ∈ l, o = none) :
    firstSome l = none := by
  induction l with
  | nil => rfl
  | cons o rest ih =>
    have ho := h o (List.mem_cons_self o rest)
    subst ho
    exact ih (fun o' ho' => h o' (List.mem_cons_of_mem _ ho'))

/-- C7: title extraction is mandatory and field extraction degrades
independently — a fragment with no locatable title yields no record while
the other fragments of the page are still processed, and each non-title
field whose selectors all miss is set to exactly the sentinel, whatever
the rest of the fragment holds. -/
theorem c7_title_mandatory_fields_independent (p : Int) :
    (∀ f : Fragment, f.titlePrimary = none → f.titleAlt = none →
      extract_record p f = none) ∧
    (∀ (frags1 frags2 : List Fragment) (f : Fragment), f.titlePrimary = none →
      f.titleAlt = none →
      extract_page p (frags1 ++ f :: frags2) =
        extract_page p frags1 ++ extract_page p frags2) ∧
    (∀ (f : Fragment) (te : TitleElem), (f.titlePrimary <|> f.titleAlt) = some te →
      extract_record p f = some (build_record p f te)) ∧
    (∀ (f : Fragment) (te : TitleElem), f.companyElem = none →
      getVal (build_record p f te) "company" = some (Value.str sentinel)) ∧
    (∀ (f : Fragment) (te : TitleElem), f.countryElem = none →
      getVal (build_record p f te) "location" = some (Value.str sentinel)) ∧
    (∀ (f : Fragment) (te : TitleElem), (∀ o ∈ f.durationSel, o = none) →
      getVal (build_record p f te) "duration" = some (Value.str sentinel)) ∧
    (∀ (f : Fragment) (te : TitleElem), (∀ o ∈ f.postDateSel, o = none) →
      getVal (build_record p f te) "post_date" = some (Value.str sentinel)) ∧
    (∀ (f : Fragment) (te : TitleElem), f.deadlineBox = none →
      getVal (build_record p f te) "deadline" = some (Value.str sentinel)) ∧
    (∀ (f : Fragment) (te : TitleElem) (box : DeadlineBox),
      f.deadlineBox = some box → box.single = none → box.item = none →
      getVal (build_record p f te) "deadline" = some (Value.str sentinel)) ∧
    (∀ (f : Fragment) (te : TitleElem), f.fieldOfStudy = none →
      getVal (build_record p f te) "field" = some (Value.str sentinel)) := by
  refine ⟨?_, ?_, ?_, ?_, ?_, ?_, ?_, ?_, ?_, ?_⟩
  · intro f h1 h2
    simp [extract_record, h1, h2]
  · intro frags1 frags2 f h1 h2
    simp [extract_page, List.filterMap_append, List.filterMap_cons,
      extract_record, h1, h2]
  · intro f te h
    simp [extract_record, h]
  · intro f te h
    simp [build_record, getVal, h]
  · intro f te h
    simp [build_record, getVal, extractLocation, h]
  · intro f te h
    simp [build_record, getVal, extractFirst, firstSome_eq_none h]
  · intro f te h
    simp [build_record, getVal, extractFirst, firstSome_eq_none h]
  · intro f te h
    simp [build_record, getVal, extractDeadline, h]
  · intro f te box hbox hs hi
    simp [build_record, getVal, extractDeadline, hbox, hs, hi]
  · intro f te h
    simp [build_record, getVal, h]

/-- A listing fragment in which no title selector matches. -/
def titleless_fragment : Fragment :=
  ⟨none, none, some "Acme", some "Spain", none, [none, none, none, none],
   [none, none, none, none], none, some "IT"⟩

theorem c7_witness_titleless_skipped :
    extract_record 1 titleless_fragment = none :=
  (c7_title_mandatory_fields_independent 1).1 titleless_fragment rfl rfl

/-! ### Sorting lemmas for the descending score order -/

theorem mem_insertDesc {x y : SRecord × Rat} {l : List (SRecord × Rat)} :
    y ∈ insertDesc x l ↔ y = x ∨ y ∈ l := by
  induction l with
  | nil => simp [insertDesc]
  | cons z zs ih =>
    by_cases h : z.2 < x.2
    · simp [insertDesc, h, List.mem_cons]
    · rw [insertDesc, if_neg h]
      simp only [List.mem_cons, ih]
      tauto

theorem mem_sortDesc {y : SRecord × Rat} {l : List (SRecord × Rat)} :
    y ∈ sortDesc l ↔ y ∈ l := by
  induction l with
  | nil => simp [sortDesc]
  | cons x xs ih => simp [sortDesc, mem_insertDesc, ih, List.mem_cons]

theorem length_insertDesc (x : SRecord × Rat) (l : List (SRecord × Rat)) :
    (insertDesc x l).length = l.length + 1 := by
  induction l with
  | nil => rfl
  | cons z zs ih =>
    by_cases h : z.2 < x.2
    · simp [insertDesc, h]
    · simp [insertDesc, h, ih]

theorem length_sortDesc (l : List (SRecord × Rat)) :
    (sortDesc l).length = l.length := by
  induction l with
  | nil => rfl
  | cons x xs ih => simp [sortDesc, length_insertDesc, ih]

theorem pairwise_insertDesc {x : SRecord × Rat} {l : List (SRecord × Rat)}
    (h : l.Pairwise (fun a b => b.2 ≤ a.2)) :
    (insertDesc x l).Pairwise (fun a b => b.2 ≤ a.2) := by
  induction l with
  | nil => simp [insertDesc]
  | cons z zs ih =>
    obtain ⟨hz, hzs⟩ := List.pairwise_cons.mp h
    by_cases hlt : z.2 < x.2
    · rw [insertDesc, if_pos hlt]
      refine List.pairwise_cons.mpr ⟨?_, h⟩
      intro b hb
      rcases List.mem_cons.mp hb with rfl | hb'
      · exact le_of_lt hlt
      · exact le_trans (hz b hb') (le_of_lt hlt)
    · rw [insertDesc, if_neg hlt]
      refine List.pairwise_cons.mpr ⟨?_, ih hzs⟩
      intro b hb
      rcases mem_insertDesc.mp hb with rfl | hb'
      · exact le_of_not_lt hlt
      · exact hz b hb'

theorem pairwise_sortDesc (l : List (SRecord × Rat)) :
    (sortDesc l).Pairwise (fun a b => b.2 ≤ a.2) := by
  induction l with
  | nil => simp [sortDesc]
  | cons x xs ih => exact pairwise_insertDesc ih

/-- Characterization of `keyword_matching` membership: every returned pair
is an input job, its raw term count is positive, and its score is the
exact value of `score / len(query_terms)`. -/
theorem keyword_matching_mem {jobs : List SRecord} {terms : List String}
    {job : SRecord} {s : Rat} (h : (job, s) ∈ keyword_matching jobs terms) :
    job ∈ jobs ∧ 0 < matchCount job terms ∧
      s = mkRat (matchCount job terms) terms.length := by
  unfold keyword_matching at h
  rw [mem_sortDesc] at h
  simp only [List.mem_filterMap] at h
  obtain ⟨j, hj, hsome⟩ := h
  by_cases hpos :
      0 < ((terms.map toLowerStr).filter (fun t => containsStr t (job_text j))).length
  · rw [if_pos hpos, Option.some.injEq, Prod.mk.injEq] at hsome
    obtain ⟨rfl, rfl⟩ := hsome
    refine ⟨hj, ?_, ?_⟩
    · simpa [matchCount] using hpos
    · simp [matchCount, List.length_map]
  · rw [if_neg hpos] at hsome
    exact absurd hsome (by simp)

theorem matchCount_le_length (job : SRecord) (terms : List String) :
    matchCount job terms ≤ terms.length :=
  le_trans (List.length_filter_le _ _) (le_of_eq (List.length_map _ _))

/-- C4: every score `keyword_matching` attaches equals the number of
query terms contained (case-insensitively) in the record text built from
title, company, field and description, divided by the total number of
query terms, and every score lies in `[0, 1]`. -/
theorem c4_keyword_score_is_fraction (jobs : List SRecord) (terms : List String)
    (job : SRecord) (s : Rat) (h : (job, s) ∈ keyword_matching jobs terms) :
    s = (matchCount job terms : Rat) / (terms.length : Rat) ∧ 0 ≤ s ∧ s ≤ 1 := by
  obtain ⟨hjob, hpos, hs⟩ := keyword_matching_mem h
  have hdiv : s = (matchCount job terms : Rat) / (terms.length : Rat) := by
    rw [hs, Rat.mkRat_eq_div]
    push_cast
    rfl
  have hle := matchCount_le_length job terms
  have hlen : 0 < terms.length := lt_of_lt_of_le hpos hle
  refine ⟨hdiv, ?_, ?_⟩
  · rw [hdiv]
    exact div_nonneg (Nat.cast_nonneg _) (Nat.cast_nonneg _)
  · rw [hdiv, div_le_one (by exact_mod_cast hlen)]
    exact_mod_cast hle

/-- A job record whose concatenated text contains "python" but not
"data". -/
def python_job : SRecord :=
  [("title", "Python Engineer"), ("company", "Acme"), ("field", "Software"),
   ("description", "Builds python tooling")]

theorem c4_witness_half_score :
    mkRat 1 2 = (matchCount python_job ["python", "data"] : Rat) /
      ((["python", "data"] : List String).length : Rat) ∧
    0 ≤ (mkRat 1 2 : Rat) ∧ (mkRat 1 2 : Rat) ≤ 1 :=
  c4_keyword_score_is_fraction [python_job] ["python", "data"] python_job
    (mkRat 1 2) (by decide)

/-- C10: `keyword_matching` returns only pairs with a strictly positive
score; a record containing none of the query terms is omitted entirely
(never included with score 0), so the output can be shorter than the
input. -/
theorem c10_zero_score_records_omitted (jobs : List SRecord) (terms : List String) :
    (∀ p ∈ keyword_matching jobs terms, 0 < p.2) ∧
    (∀ job : SRecord, matchCount job terms = 0 →
      ∀ s : Rat, (job, s) ∉ keyword_matching jobs terms) ∧
    (keyword_matching jobs terms).length ≤ jobs.length := by
  refine ⟨?_, ?_, ?_⟩
  · rintro ⟨job, s⟩ hp
    obtain ⟨-, hpos, hs⟩ := keyword_matching_mem hp
    have hlen : 0 < terms.length :=
      lt_of_lt_of_le hpos (matchCount_le_length job terms)
    show (0 : Rat) < s
    rw [hs, Rat.mkRat_eq_div]
    apply div_pos
    · exact_mod_cast hpos
    · exact_mod_cast hlen
  · intro job h0 s hmem
    obtain ⟨-, hpos, -⟩ := keyword_matching_mem hmem
    omega
  · simp only [keyword_matching]
    rw [length_sortDesc]
    exact List.length_filterMap_le _ _

/-- A job record containing no query term at all. -/
def matchless_job : SRecord := [("title", "Chef"), ("description", "Cooking")]

theorem c10_witness_matchless_omitted :
    (matchless_job, mkRat 1 1) ∉
      keyword_matching [python_job, matchless_job] ["python"] :=
  (c10_zero_score_records_omitted [python_job, matchless_job] ["python"]).2.1
    matchless_job (by decide) (mkRat 1 1)

/-- Record A of the ranking sort example. -/
def record_a : SRecord := [("title", "A")]

/-- Record B of the ranking sort example. -/
def record_b : SRecord := [("title", "B")]

/-- Record C of the ranking sort example. -/
def record_c : SRecord := [("title", "C")]

/-- C8: both ranked outputs — the keyword matches of `search.py` and the
rows `save_to_csv` persists — are sorted descending by score: whenever a
row precedes another, its score is at least as large; in particular scores
0.2/0.9/0.5 for records A/B/C come out in the order B, C, A. -/
theorem c8_ranked_output_descending (jobs : List SRecord) (terms : List String)
    (probs : List Rat) :
    (keyword_matching jobs terms).Pairwise (fun a b => b.2 ≤ a.2) ∧
    (save_to_csv_rows jobs probs).Pairwise (fun a b => b.2 ≤ a.2) ∧
    save_to_csv_rows [record_a, record_b, record_c]
        [mkRat 2 10, mkRat 9 10, mkRat 5 10] =
      [(record_b, mkRat 9 10), (record_c, mkRat 5 10), (record_a, mkRat 2 10)] := by
  refine ⟨?_, pairwise_sortDesc _, by decide⟩
  simp only [keyword_matching]
  exact pairwise_sortDesc _

/-- C3 counterexample: with the transformer method selected and the
embedding stack raising `ImportError`, `search.py`'s `main` does run the
query through the keyword-overlap strategy in the very same invocation —
and here that substitution produces a non-empty keyword-scored result. -/
theorem c3_counterexample_search_substitutes_keyword :
    search_main_transformer [python_job] "python" 5 EmbedOutcome.importErr
      = (keyword_matching [python_job] (pySplit "python")).take 5 ∧
    search_main_transformer [python_job] "python" 5 EmbedOutcome.importErr ≠ [] :=
  ⟨rfl, by decide⟩

/-- C3 (amended): on an unavailable embedding stack,
`rank_jobs.process_query` abandons the invocation (prints remediation
instructions and returns `None`, never substituting a strategy), whereas
`search.py`'s `main` announces a fallback and substitutes the
keyword-overlap strategy for the embedding strategy within the same
invocation. -/
theorem c3_amended_import_error_handling (jobs : List SRecord) (query : String)
    (n : Nat) :
    process_query jobs query EmbedOutcome.importErr = none ∧
    search_main_transformer jobs query n EmbedOutcome.importErr
      = (keyword_matching jobs (pySplit query)).take n := by
  refine ⟨?_, rfl⟩
  unfold process_query
  by_cases h : jobs.isEmpty <;> simp [h]

/-! ### Lemmas about the multi-query score columns -/

theorem getVal_none_of_keys {α : Type} (l : List (String × α)) (k : String)
    (h : ∀ p ∈ l, p.1 ≠ k) : getVal l k = none := by
  induction l with
  | nil => rfl
  | cons p rest ih =>
    obtain ⟨a, w⟩ := p
    have ha : a ≠ k := h (a, w) (List.mem_cons_self _ _)
    have hk : k ≠ a := Ne.symm ha
    simp [getVal, hk, ih (fun q hq => h q (List.mem_cons_of_mem _ hq))]

theorem strStartsWith_colName (q : String) :
    strStartsWith (colName q) "match_probability_" = true := by
  unfold colName strStartsWith
  rw [String.data_append]
  exact Iff.mpr List.isPrefixOf_iff_prefix (List.prefix_append _ _)

theorem foldl_setField_fresh (scores : String → List Rat) :
    ∀ (qs : List String) (base : Cols),
      (∀ q ∈ qs, getVal base (colName q) = none) →
      (qs.map colName).Nodup →
      qs.foldl (fun acc q => setField acc (colName q) (scores q)) base
        = base ++ qs.map (fun q => (colName q, scores q)) := by
  intro qs
  induction qs with
  | nil =>
    intro base _ _
    simp
  | cons q rest ih =>
    intro base hfresh hnodup
    rw [List.map_cons] at hnodup
    have hnodup2 := List.nodup_cons.mp hnodup
    simp only [List.foldl_cons, List.map_cons]
    rw [setField_of_getVal_none _ _ (hfresh q (List.mem_cons_self _ _))]
    have hfresh2 : ∀ q' ∈ rest,
        getVal (base ++ [(colName q, scores q)]) (colName q') = none := by
      intro q' hq'
      rw [getVal_append, hfresh q' (List.mem_cons_of_mem _ hq')]
      have hne : colName q' ≠ colName q := by
        intro heq
        exact hnodup2.1 (heq ▸ List.mem_map_of_mem colName hq')
      simp [getVal, Option.orElse, hne]
    rw [ih _ hfresh2 hnodup2.2]
    simp

theorem getVal_map_colName (scores : String → List Rat) :
    ∀ (qs : List String) (q : String), q ∈ qs → (qs.map colName).Nodup →
      getVal (qs.map (fun q2 => (colName q2, scores q2))) (colName q)
        = some (scores q) := by
  intro qs
  induction qs with
  | nil =>
    intro q hq _
    exact absurd hq (List.not_mem_nil q)
  | cons q0 rest ih =>
    intro q hq hnodup
    rw [List.map_cons] at hnodup
    have hnodup2 := List.nodup_cons.mp hnodup
    rcases List.mem_cons.mp hq with rfl | hq2
    · simp [getVal]
    · have hne : colName q ≠ colName q0 := by
        intro heq
        exact hnodup2.1 (heq ▸ List.mem_map_of_mem colName hq2)
      simp [getVal, hne, ih q hq2 hnodup2.2]

/-- The universal content behind claim C9: under fresh, collision-free
column names, `process_multiple_queries_cols` stores one score column per
query and stores as `average_match_probability` the row-wise arithmetic
mean of exactly those per-query columns. -/
theorem multi_query_cols_spec (base : Cols) (nRows : Nat)
    (queries : List String) (scores : String → List Rat)
    (hnodup : (queries.map colName).Nodup)
    (hbase : ∀ c ∈ base, strStartsWith c.1 "match_probability_" = false) :
    (∀ q ∈ queries,
      getVal (process_multiple_queries_cols base nRows queries scores) (colName q)
        = some (scores q)) ∧
    getVal (process_multiple_queries_cols base nRows queries scores)
        "average_match_probability"
      = some ((List.range nRows).map (fun i =>
          (queries.map (fun q => (scores q).getD i 0)).sum /
            (queries.length : Rat))) := by
  have hfresh : ∀ q ∈ queries, getVal base (colName q) = none := by
    intro q hq2
    apply getVal_none_of_keys
    intro p hp heq
    have h1 := hbase p hp
    rw [heq, strStartsWith_colName q] at h1
    exact absurd h1 (by decide)
  have havg_ne : ∀ q2 : String, colName q2 ≠ "average_match_probability" := by
    intro q2 heq
    have h1 := strStartsWith_colName q2
    rw [heq] at h1
    exact absurd h1 (by decide)
  have hfold := foldl_setField_fresh scores queries base hfresh hnodup
  have hb : base.filter (fun c => strStartsWith c.1 "match_probability_") = [] :=
    List.filter_eq_nil_iff.mpr (fun c hc => by simp [hbase c hc])
  have hm : (queries.map (fun q => (colName q, scores q))).filter
      (fun c => strStartsWith c.1 "match_probability_")
      = queries.map (fun q => (colName q, scores q)) :=
    List.filter_eq_self.mpr (fun c hc => by
      obtain ⟨q, _, rfl⟩ := List.mem_map.mp hc
      simp [strStartsWith_colName q])
  simp only [process_multiple_queries_cols]
  rw [hfold, List.filter_append, hb, hm, List.nil_append]
  constructor
  · intro q hq2
    rw [getVal_setField_ne _ _ (havg_ne q), getVal_append, hfresh q hq2]
    simp only [Option.orElse]
    exact getVal_map_colName scores queries q hq2 hnodup
  · rw [getVal_setField_self]
    have hrw : rowMeans ((queries.map (fun q => (colName q, scores q))).map
        Prod.snd) nRows
        = (List.range nRows).map (fun i =>
            (queries.map (fun q => (scores q).getD i 0)).sum /
              (queries.length : Rat)) := by
      simp only [rowMeans, List.map_map, List.length_map]
      rfl
    rw [hrw]

/-- Two abstract per-query embedding score columns for a one-record table:
0.4 for the first query, 0.8 for the second. -/
def scores_two : String → List Rat :=
  fun q => if q = "ai engineering" then [mkRat 2 5] else [mkRat 4 5]

/-- Score columns for the colliding query pair "a b" and "a_b": 0.4 for
the first query, 0.8 for the second. -/
def scores_collide : String → List Rat :=
  fun q => if q = "a b" then [mkRat 2 5] else [mkRat 4 5]

/-- C9 counterexample: the distinct queries "a b" and "a_b" sanitise to
the same column name, so the second `df[col] = ...` assignment overwrites
the first column; the table then carries one score column for two queries
and `average_match_probability` equals the second query's score 0.8, not
the claimed arithmetic mean 0.6 of the per-query scores 0.4 and 0.8. -/
theorem c9_counterexample_colliding_queries :
    colName "a b" = colName "a_b" ∧
    ((process_multiple_queries_cols [] 1 ["a b", "a_b"] scores_collide).filter
      (fun c => strStartsWith c.1 "match_probability_")).length = 1 ∧
    getVal (process_multiple_queries_cols [] 1 ["a b", "a_b"] scores_collide)
      "average_match_probability" = some [mkRat 4 5] ∧
    (["a b", "a_b"].map (fun q => (scores_collide q).getD 0 0)).sum /
      ((["a b", "a_b"] : List String).length : Rat) = mkRat 3 5 ∧
    (mkRat 4 5 : Rat) ≠ mkRat 3 5 := by
  have hcols : (["a b", "a_b"].foldl
      (fun acc q => setField acc (colName q) (scores_collide q)) ([] : Cols))
      = [("match_probability_a_b", [mkRat 4 5])] := by decide
  have hfil : (([("match_probability_a_b", [mkRat 4 5])]) : Cols).filter
      (fun c => strStartsWith c.1 "match_probability_")
      = [("match_probability_a_b", [mkRat 4 5])] := by decide
  refine ⟨by decide, by decide, ?_, ?_, by decide⟩
  · simp only [process_multiple_queries_cols]
    rw [hcols, hfil, getVal_setField_self]
    congr 1
    have hr1 : List.range 1 = [0] := rfl
    simp only [rowMeans, hr1, List.map_cons, List.map_nil, List.sum_cons,
      List.sum_nil, List.length_cons, List.length_nil]
    norm_num [Rat.mkRat_eq_div]
  · simp [scores_collide]
    norm_num [Rat.mkRat_eq_div]

/-- C9 (amended): for every record table whose records carry no
pre-existing `match_probability_` column (listing records never do) and
every non-empty list of queries whose sanitised column names are pairwise
distinct, the multi-query ranking attaches one score column per query and
stores as `average_match_probability` the row-wise arithmetic mean of
exactly those per-query columns; in particular per-query scores 0.4 and
0.8 average to exactly 0.6.  (When two queries sanitise to the same name
the later assignment overwrites the earlier column and the average equals
that single column — see the counterexample above.) -/
theorem c9_multi_query_average_mean (base : Cols) (nRows : Nat)
    (queries : List String) (scores : String → List Rat)
    (hq : queries ≠ []) (hnodup : (queries.map colName).Nodup)
    (hbase : ∀ c ∈ base, strStartsWith c.1 "match_probability_" = false) :
    (∀ q ∈ queries,
      getVal (process_multiple_queries_cols base nRows queries scores) (colName q)
        = some (scores q)) ∧
    getVal (process_multiple_queries_cols base nRows queries scores)
        "average_match_probability"
      = some ((List.range nRows).map (fun i =>
          (queries.map (fun q => (scores q).getD i 0)).sum /
            (queries.length : Rat))) ∧
    getVal (process_multiple_queries_cols [] 1 ["ai engineering", "full stack"]
        scores_two) "average_match_probability" = some [mkRat 3 5] := by
  obtain ⟨h1, h2⟩ := multi_query_cols_spec base nRows queries scores hnodup hbase
  refine ⟨h1, h2, ?_⟩
  have h3 := (multi_query_cols_spec [] 1 ["ai engineering", "full stack"]
    scores_two (by decide) (by simp)).2
  rw [h3]
  congr 1
  simp only [scores_two, Rat.mkRat_eq_div]
  have hr1 : List.range 1 = [0] := rfl
  rw [hr1]
  simp
  norm_num

theorem c9_witness_two_query_columns :
    getVal (process_multiple_queries_cols [] 1 ["ai engineering", "full stack"]
        scores_two) "average_match_probability"
      = some ((List.range 1).map (fun i =>
          ((["ai engineering", "full stack"].map
              (fun q => (scores_two q).getD i 0)).sum /
            ((["ai engineering", "full stack"] : List String).length : Rat)))) :=
  (c9_multi_query_average_mean [] 1 ["ai engineering", "full stack"] scores_two
    (by decide) (by decide) (by simp)).2.1
